import Mathlib

/-!
Verification development for the object_perception data-preparation
pipeline (src/prior_box_manager.py and src/image_generator.py).

The numeric code is embedded shallowly: boxes carry rational
coordinates, float arithmetic is modelled by exact rational or real
arithmetic, and the encode and decode steps, which use log and exp,
are modelled over the real numbers with Real.log and Real.exp.
Numpy arrays become lists; per-element numpy operations become maps
over lists; random draws become explicit parameters.
-/

/-- A box in normalized corner form, the row layout
[x_min, y_min, x_max, y_max] used throughout the source. -/
structure Box where
  xmin : ℚ
  ymin : ℚ
  xmax : ℚ
  ymax : ℚ
deriving DecidableEq, Repr

/-- The all-zero box, used as a list default. -/
def boxZero : Box := ⟨0, 0, 0, 0⟩

/-! ## PriorBoxManager._calculate_intersection_over_unions

The source clamps the intersection width and height to zero from
below, forms intersection = width * height, and divides by
union = prior_area + ground_truth_area - intersection.
-/

/-- Clamped intersection width between a ground-truth box and a prior,
max(0, min(prior_x_max, g_x_max) - max(prior_x_min, g_x_min)). -/
def intersectedWidth (g p : Box) : ℚ :=
  max 0 (min p.xmax g.xmax - max p.xmin g.xmin)

/-- Clamped intersection height, symmetric to the width. -/
def intersectedHeight (g p : Box) : ℚ :=
  max 0 (min p.ymax g.ymax - max p.ymin g.ymin)

/-- The intersection area of the clamped dimensions. -/
def intersectionArea (g p : Box) : ℚ :=
  intersectedWidth g p * intersectedHeight g p

/-- Signed area (x_max - x_min) * (y_max - y_min) of a box, exactly as
the source computes prior_box_areas and ground_truth_area: a malformed
box with max below min in one axis gets a negative area. -/
def boxArea (b : Box) : ℚ := (b.xmax - b.xmin) * (b.ymax - b.ymin)

/-- The union term of the IoU denominator:
prior_area + ground_truth_area - intersection. -/
def unionArea (g p : Box) : ℚ := boxArea p + boxArea g - intersectionArea g p

/-- Intersection over union of a ground-truth box and one prior.
Rational division is total in Lean, so a vanishing union is the
division-by-zero point of the source (numpy emits nan there). -/
def intersectionOverUnion (g p : Box) : ℚ :=
  intersectionArea g p / unionArea g p

/-- The IoU vector of one ground-truth box against every prior, the
return value of PriorBoxManager._calculate_intersection_over_unions. -/
def calculateIntersectionOverUnions (priors : List Box) (g : Box) : List ℚ :=
  priors.map (fun p => intersectionOverUnion g p)

/-! ## numpy argmax and the assignment mask of
PriorBoxManager._assign_boxes_to_object -/

/-- numpy argmax: the first index whose value is greater than or equal
to every element of the list. -/
def npArgmax (l : List ℚ) : ℕ :=
  l.findIdx fun v => l.all fun w => decide (w ≤ v)

/-- The assignment mask of _assign_boxes_to_object: priors whose IoU is
strictly above the overlap threshold; when none is, the single argmax
prior is forced in as the fallback. -/
def assignMask (threshold : ℚ) (ious : List ℚ) : List Bool :=
  if (ious.map fun v => decide (threshold < v)).any id then
    ious.map fun v => decide (threshold < v)
  else (ious.map fun v => decide (threshold < v)).set (npArgmax ious) true

/-- The four box scale factors controlling encoding sensitivity for
center x, center y, width and height. -/
structure ScaleFactors where
  cx : ℚ
  cy : ℚ
  w : ℚ
  h : ℚ
deriving DecidableEq, Repr

/-- PriorBoxManager._encode_box restricted to one assigned prior d and
the ground-truth box g: the delta
((g_cx - d_cx) / (d_w * scale_cx), (g_cy - d_cy) / (d_h * scale_cy),
 log(g_w / d_w) / scale_w, log(g_h / d_h) / scale_h). -/
noncomputable def encodeBox (sf : ScaleFactors) (d g : Box) : ℝ × ℝ × ℝ × ℝ :=
  ((0.5 * ((g.xmin : ℝ) + (g.xmax : ℝ)) - 0.5 * ((d.xmin : ℝ) + (d.xmax : ℝ))) /
      (((d.xmax : ℝ) - (d.xmin : ℝ)) * (sf.cx : ℝ)),
   (0.5 * ((g.ymin : ℝ) + (g.ymax : ℝ)) - 0.5 * ((d.ymin : ℝ) + (d.ymax : ℝ))) /
      (((d.ymax : ℝ) - (d.ymin : ℝ)) * (sf.cy : ℝ)),
   Real.log (((g.xmax : ℝ) - (g.xmin : ℝ)) / ((d.xmax : ℝ) - (d.xmin : ℝ))) /
      (sf.w : ℝ),
   Real.log (((g.ymax : ℝ) - (g.ymin : ℝ)) / ((d.ymax : ℝ) - (d.ymin : ℝ))) /
      (sf.h : ℝ))

/-- The first four entries of a flat ground-truth row as a box, the
ground_truth_data[:, :4] slice. -/
def boxOfRow (row : List ℚ) : Box :=
  ⟨row.getD 0 0, row.getD 1 0, row.getD 2 0, row.getD 3 0⟩

/-- PriorBoxManager._assign_boxes_to_object with return_iou: per prior,
the encoded delta columns 0:4 (zero when the prior is unmasked) and the
stored IoU column 4 (zero when unmasked). -/
noncomputable def assignBoxesToObject (sf : ScaleFactors) (threshold : ℚ)
    (priors : List Box) (g : Box) : List ((ℝ × ℝ × ℝ × ℝ) × ℚ) :=
  (List.range priors.length).map fun p =>
    (if (assignMask threshold (calculateIntersectionOverUnions priors g)).getD
        p false then encodeBox sf (priors.getD p boxZero) g
     else (0, 0, 0, 0),
     if (assignMask threshold (calculateIntersectionOverUnions priors g)).getD
        p false then (calculateIntersectionOverUnions priors g).getD p 0
     else 0)

/-- One all-background row of the assignment matrix: zeros except the 1
written at column 4 + background_id. -/
def bgRow (bid numClasses : ℕ) : List ℝ :=
  (List.range (4 + numClasses + 8)).map fun c => if c = 4 + bid then 1 else 0

/-- A matched row of the assignment matrix: the winning delta in
columns 0:4, column 4 overwritten to 0, columns 5 : 4 + num_classes
copied from the winning ground-truth row entries 5:, the first
auxiliary column (index 4 + num_classes, i.e. -8) set to 1, and the
trailing auxiliary columns left at their initial value. -/
def matchedRow (bid numClasses : ℕ) (delta : ℝ × ℝ × ℝ × ℝ)
    (gtRow : List ℚ) : List ℝ :=
  (List.range (4 + numClasses + 8)).map fun c =>
    if c = 0 then delta.1
    else if c = 1 then delta.2.1
    else if c = 2 then delta.2.2.1
    else if c = 3 then delta.2.2.2
    else if c = 4 then 0
    else if c < 4 + numClasses then ((gtRow.getD c 0 : ℚ) : ℝ)
    else if c = 4 + numClasses then 1
    else if c = 4 + bid then 1 else 0

/-- The per-object encoded matrices, one _assign_boxes_to_object call
per ground-truth row, the stack np.apply_along_axis builds. -/
noncomputable def encodedObjects (sf : ScaleFactors) (threshold : ℚ)
    (priors : List Box) (gt : List (List ℚ)) :
    List (List ((ℝ × ℝ × ℝ × ℝ) × ℚ)) :=
  gt.map fun row => assignBoxesToObject sf threshold priors (boxOfRow row)

/-- The stored-IoU column of the stacked per-object matrices at one
prior index: encoded_boxes[:, p, -1]. -/
def storedIouColumn (enc : List (List ((ℝ × ℝ × ℝ × ℝ) × ℚ))) (p : ℕ) :
    List ℚ :=
  enc.map fun e => (e.getD p ((0, 0, 0, 0), 0)).2

/-- One row of the assignment matrix in the nonempty case: the
ground-truth object with the highest stored IoU at this prior (numpy
argmax, first index on ties) wins the row; the row is kept background
unless that best stored IoU is strictly positive. -/
noncomputable def assignedRow (sf : ScaleFactors) (threshold : ℚ)
    (bid numClasses : ℕ) (priors : List Box) (gt : List (List ℚ))
    (p : ℕ) : List ℝ :=
  if 0 < (storedIouColumn (encodedObjects sf threshold priors gt) p).getD
      (npArgmax (storedIouColumn (encodedObjects sf threshold priors gt) p))
      0 then
    matchedRow bid numClasses
      (((encodedObjects sf threshold priors gt).getD
          (npArgmax (storedIouColumn (encodedObjects sf threshold priors gt)
            p)) []).getD p ((0, 0, 0, 0), 0)).1
      (gt.getD
        (npArgmax (storedIouColumn (encodedObjects sf threshold priors gt) p))
        [])
  else bgRow bid numClasses

/-- PriorBoxManager.assign_boxes: the empty ground truth returns the
all-background matrix; otherwise every prior row is resolved by
assignedRow. -/
noncomputable def assignBoxes (sf : ScaleFactors) (threshold : ℚ)
    (bid numClasses : ℕ) (priors : List Box) (gt : List (List ℚ)) :
    List (List ℝ) :=
  match gt with
  | [] => List.replicate priors.length (bgRow bid numClasses)
  | _ :: _ =>
    (List.range priors.length).map fun p =>
      assignedRow sf threshold bid numClasses priors gt p

/-! ## PriorBoxManager.decode_boxes -/

/-- np.clip(x, 0.0, 1.0). -/
noncomputable def clip01 (x : ℝ) : ℝ := min 1 (max 0 x)

/-- The four delta components of one encoded box as a flat row, the
layout np.concatenate builds in _encode_box. -/
def deltaToList (d : ℝ × ℝ × ℝ × ℝ) : List ℝ := [d.1, d.2.1, d.2.2.1, d.2.2.2]

/-- PriorBoxManager.decode_boxes restricted to one prior p and one
predicted row: reconstruct center and size from the deltas, rebuild the
corners, clip them to [0,1], and pass any trailing columns through
unchanged. -/
noncomputable def decodeRow (sf : ScaleFactors) (p : Box) (row : List ℝ) :
    List ℝ :=
  [clip01 (row.getD 0 0 * ((p.xmax : ℝ) - (p.xmin : ℝ)) * (sf.cx : ℝ) +
      0.5 * ((p.xmax : ℝ) + (p.xmin : ℝ)) -
      0.5 * (Real.exp (row.getD 2 0 * (sf.w : ℝ)) *
        ((p.xmax : ℝ) - (p.xmin : ℝ)))),
   clip01 (row.getD 1 0 * ((p.ymax : ℝ) - (p.ymin : ℝ)) * (sf.cy : ℝ) +
      0.5 * ((p.ymax : ℝ) + (p.ymin : ℝ)) -
      0.5 * (Real.exp (row.getD 3 0 * (sf.h : ℝ)) *
        ((p.ymax : ℝ) - (p.ymin : ℝ)))),
   clip01 (row.getD 0 0 * ((p.xmax : ℝ) - (p.xmin : ℝ)) * (sf.cx : ℝ) +
      0.5 * ((p.xmax : ℝ) + (p.xmin : ℝ)) +
      0.5 * (Real.exp (row.getD 2 0 * (sf.w : ℝ)) *
        ((p.xmax : ℝ) - (p.xmin : ℝ)))),
   clip01 (row.getD 1 0 * ((p.ymax : ℝ) - (p.ymin : ℝ)) * (sf.cy : ℝ) +
      0.5 * ((p.ymax : ℝ) + (p.ymin : ℝ)) +
      0.5 * (Real.exp (row.getD 3 0 * (sf.h : ℝ)) *
        ((p.ymax : ℝ) - (p.ymin : ℝ))))] ++ row.drop 4

/-- PriorBoxManager.decode_boxes: one decoded row per prior, the
predicted rows aligned with the prior list by index. -/
noncomputable def decodeBoxes (sf : ScaleFactors) (priors : List Box)
    (rows : List (List ℝ)) : List (List ℝ) :=
  List.zipWith (decodeRow sf) priors rows

/-! ## ImageGenerator._select_samples -/

/-- ImageGenerator._select_samples: foreground rows are those whose
column 4 differs from 1; the background rows are permuted (the
permutation is an explicit parameter standing for
np.random.permutation) and truncated to
negative_positive_ratio * num_foreground before selection. -/
def selectSamples (negPerPos : ℕ) (perm : List ℕ)
    (assignedData : List (List ℚ)) : List (List ℚ) × List (List ℚ) :=
  ((assignedData.filter fun r => decide (r.getD 4 0 ≠ 1)),
   ((perm.take (negPerPos *
      (assignedData.filter fun r => decide (r.getD 4 0 ≠ 1)).length)).filterMap
     fun i => (assignedData.filter fun r => decide (r.getD 4 0 = 1))[i]?))

/-! ## ImageGenerator color jitter and the saturation attribute gap -/

/-- The three color-jitter operations of ImageGenerator. -/
inductive Jitter
  | saturation
  | brightness
  | contrast
deriving DecidableEq, Repr

/-- The jitter-related state built by ImageGenerator.__init__: each
variance attribute exists only when the corresponding constructor
argument is truthy (nonzero), and color_jitter lists the enabled
operations. -/
structure ImageGenState where
  saturationVar : Option ℚ
  brightnessVar : Option ℚ
  contrastVar : Option ℚ
  colorJitter : List Jitter
deriving DecidableEq, Repr

/-- ImageGenerator.__init__ restricted to the color-jitter fields. -/
def initGenerator (saturationVar brightnessVar contrastVar : ℚ) :
    ImageGenState :=
  { saturationVar := if saturationVar ≠ 0 then some saturationVar else none,
    brightnessVar := if brightnessVar ≠ 0 then some brightnessVar else none,
    contrastVar := if contrastVar ≠ 0 then some contrastVar else none,
    colorJitter :=
      (if saturationVar ≠ 0 then [Jitter.saturation] else []) ++
      (if brightnessVar ≠ 0 then [Jitter.brightness] else []) ++
      (if contrastVar ≠ 0 then [Jitter.contrast] else []) }

/-- The grayscale dot product [0.299, 0.587, 0.114] of one pixel. -/
def grayScalePixel (px : ℚ × ℚ × ℚ) : ℚ :=
  px.1 * (299/1000) + px.2.1 * (587/1000) + px.2.2 * (114/1000)

/-- np.clip(x, 0, 255). -/
def clip255 (v : ℚ) : ℚ := min 255 (max 0 v)

/-- ImageGenerator.saturation: its blend factor reads
self.brightness_var first and self.saturation_var second; a missing
attribute is the AttributeError, modelled as Except.error. -/
def saturationOp (st : ImageGenState) (rand : ℚ) (img : List (ℚ × ℚ × ℚ)) :
    Except Unit (List (ℚ × ℚ × ℚ)) :=
  match st.brightnessVar with
  | none => Except.error ()
  | some bv =>
    match st.saturationVar with
    | none => Except.error ()
    | some sv =>
      Except.ok (img.map fun px =>
        (clip255 ((2 * rand * bv + 1 - sv) * px.1 +
          (1 - (2 * rand * bv + 1 - sv)) * grayScalePixel px),
         clip255 ((2 * rand * bv + 1 - sv) * px.2.1 +
          (1 - (2 * rand * bv + 1 - sv)) * grayScalePixel px),
         clip255 ((2 * rand * bv + 1 - sv) * px.2.2 +
          (1 - (2 * rand * bv + 1 - sv)) * grayScalePixel px)))

/-- ImageGenerator.brightness: its blend factor also reads both
self.brightness_var and self.saturation_var. -/
def brightnessOp (st : ImageGenState) (rand : ℚ) (img : List (ℚ × ℚ × ℚ)) :
    Except Unit (List (ℚ × ℚ × ℚ)) :=
  match st.brightnessVar with
  | none => Except.error ()
  | some bv =>
    match st.saturationVar with
    | none => Except.error ()
    | some sv =>
      Except.ok (img.map fun px =>
        (clip255 ((2 * rand * bv + 1 - sv) * px.1),
         clip255 ((2 * rand * bv + 1 - sv) * px.2.1),
         clip255 ((2 * rand * bv + 1 - sv) * px.2.2)))

/-- ImageGenerator.contrast: blends against the grayscale mean; only
self.contrast_var is read. -/
def contrastOp (st : ImageGenState) (rand : ℚ) (img : List (ℚ × ℚ × ℚ)) :
    Except Unit (List (ℚ × ℚ × ℚ)) :=
  match st.contrastVar with
  | none => Except.error ()
  | some cv =>
    Except.ok (img.map fun px =>
      (clip255 (px.1 * (2 * rand * cv + 1 - cv) +
        (1 - (2 * rand * cv + 1 - cv)) *
          ((img.map grayScalePixel).sum / img.length)),
       clip255 (px.2.1 * (2 * rand * cv + 1 - cv) +
        (1 - (2 * rand * cv + 1 - cv)) *
          ((img.map grayScalePixel).sum / img.length)),
       clip255 (px.2.2 * (2 * rand * cv + 1 - cv) +
        (1 - (2 * rand * cv + 1 - cv)) *
          ((img.map grayScalePixel).sum / img.length))))

/-- Dispatch of one color-jitter operation. -/
def applyJitter (st : ImageGenState) (j : Jitter) (rand : ℚ)
    (img : List (ℚ × ℚ × ℚ)) : Except Unit (List (ℚ × ℚ × ℚ)) :=
  match j with
  | Jitter.saturation => saturationOp st rand img
  | Jitter.brightness => brightnessOp st rand img
  | Jitter.contrast => contrastOp st rand img

/-- The color-jitter loop at the top of ImageGenerator.transform: the
shuffled jitter list is applied in order, each call drawing the next
random value; the first AttributeError aborts the transform call. -/
def applyJitters (st : ImageGenState) (rands : ℕ → ℚ) :
    ℕ → List Jitter → List (ℚ × ℚ × ℚ) → Except Unit (List (ℚ × ℚ × ℚ))
  | _, [], img => Except.ok img
  | k, j :: rest, img =>
    match applyJitter st j (rands k) img with
    | Except.error e => Except.error e
    | Except.ok img2 => applyJitters st rands (k + 1) rest img2

/-- ImageGenerator.transform on the image: the color-jitter loop runs
first over the shuffled jitter list; the later stages (lighting and the
two flips), which only run when every jitter succeeded, are abstracted
as the parameter laterStages. An AttributeError raised inside a jitter
aborts the whole transform call. -/
def transform (st : ImageGenState) (rands : ℕ → ℚ) (order : List Jitter)
    (laterStages : List (ℚ × ℚ × ℚ) → List (ℚ × ℚ × ℚ))
    (img : List (ℚ × ℚ × ℚ)) : Except Unit (List (ℚ × ℚ × ℚ)) :=
  match applyJitters st rands 0 order img with
  | Except.error e => Except.error e
  | Except.ok img2 => Except.ok (laterStages img2)

/-! ## Flips and the in-place mutation of ground_truth_data

Python arrays are references: the box array a flip writes into is the
very object stored in the ground_truth_data mapping. The heap models
that aliasing: addresses are naturals, the ground-truth store maps keys
to addresses, and the numpy in-place slice assignment becomes a heap
update at the given address.
-/

/-- Update one address of the box-array heap. -/
def heapUpdate (heap : ℕ → List (List ℚ)) (a : ℕ) (v : List (List ℚ)) :
    ℕ → List (List ℚ) :=
  fun x => if x = a then v else heap x

/-- The horizontal-flip coordinate remap of one ground-truth row:
box_corners[:, [0, 2]] = 1 - box_corners[:, [2, 0]], the other columns
unchanged. -/
def horizontalFlipRow (r : List ℚ) : List ℚ :=
  (List.range r.length).map fun c =>
    if c = 0 then 1 - r.getD 2 0
    else if c = 2 then 1 - r.getD 0 0
    else r.getD c 0

/-- The vertical-flip coordinate remap of one ground-truth row:
box_corners[:, [1, 3]] = 1 - box_corners[:, [3, 1]]. -/
def verticalFlipRow (r : List ℚ) : List ℚ :=
  (List.range r.length).map fun c =>
    if c = 1 then 1 - r.getD 3 0
    else if c = 3 then 1 - r.getD 1 0
    else r.getD c 0

/-- ImageGenerator.horizontal_flip on the box array: when the random
draw fires, the remapped rows are written in place (the heap cell at
the argument address changes) and the very same address is returned. -/
def horizontalFlip (fire : Bool) (heap : ℕ → List (List ℚ)) (boxAddr : ℕ) :
    (ℕ → List (List ℚ)) × ℕ :=
  if fire then
    (heapUpdate heap boxAddr ((heap boxAddr).map horizontalFlipRow), boxAddr)
  else (heap, boxAddr)

/-- ImageGenerator.vertical_flip on the box array, symmetric. -/
def verticalFlip (fire : Bool) (heap : ℕ → List (List ℚ)) (boxAddr : ℕ) :
    (ℕ → List (List ℚ)) × ℕ :=
  if fire then
    (heapUpdate heap boxAddr ((heap boxAddr).map verticalFlipRow), boxAddr)
  else (heap, boxAddr)

/-- The box part of ImageGenerator.transform: horizontal flip then
vertical flip, threading the heap and the array reference. -/
def transformBoxEffect (hFire vFire : Bool) (heap : ℕ → List (List ℚ))
    (boxAddr : ℕ) : (ℕ → List (List ℚ)) × ℕ :=
  verticalFlip vFire (horizontalFlip hFire heap boxAddr).1
    (horizontalFlip hFire heap boxAddr).2

/-- One key step of ImageGenerator.flow as it affects the stored
ground truth: box_data = self.ground_truth_data[key] fetches the stored
array reference and transform mutates it through that reference. -/
def flowKeyBoxEffect (groundTruthData : String → ℕ) (key : String)
    (hFire vFire : Bool) (heap : ℕ → List (List ℚ)) :
    ℕ → List (List ℚ) :=
  (transformBoxEffect hFire vFire heap (groundTruthData key)).1

/-! ## ImageGenerator._denormalize_box and the crop window -/

/-- ImageGenerator._denormalize_box: multiply columns 0 and 2 of every
row by the original image width and columns 1 and 3 by the original
image height, leaving the remaining columns alone. In flow this is
applied directly to the assign_boxes output, whose first four columns
are the encoded deltas. -/
def denormalizeBox (rows : List (List ℝ)) (heightPx widthPx : ℝ) :
    List (List ℝ) :=
  rows.map fun r => (List.range r.length).map fun c =>
    if c = 0 then r.getD 0 0 * widthPx
    else if c = 1 then r.getD 1 0 * heightPx
    else if c = 2 then r.getD 2 0 * widthPx
    else if c = 3 then r.getD 3 0 * heightPx
    else r.getD c 0

/-- Python int() truncation toward zero. -/
noncomputable def pyInt (x : ℝ) : ℤ :=
  if 0 ≤ x then Int.floor x else -(Int.floor (-x))

/-- The crop window ImageGenerator._crop_bounding_box reads from the
first four entries of a selected row. -/
noncomputable def cropWindow (r : List ℝ) : ℤ × ℤ × ℤ × ℤ :=
  (pyInt (r.getD 0 0), pyInt (r.getD 1 0), pyInt (r.getD 2 0),
   pyInt (r.getD 3 0))

/-! Basic bounds on the clamped intersection, used by the IoU claims. -/

theorem intersectedWidth_nonneg (g p : Box) : 0 ≤ intersectedWidth g p :=
  le_max_left 0 _

theorem intersectedHeight_nonneg (g p : Box) : 0 ≤ intersectedHeight g p :=
  le_max_left 0 _

theorem intersectionArea_nonneg (g p : Box) : 0 ≤ intersectionArea g p :=
  mul_nonneg (intersectedWidth_nonneg g p) (intersectedHeight_nonneg g p)

/-- For valid boxes the clamped intersection width is at most the width
of the ground-truth box. -/
theorem intersectedWidth_le_g (g p : Box) (h : g.xmin ≤ g.xmax) :
    intersectedWidth g p ≤ g.xmax - g.xmin := by
  unfold intersectedWidth
  apply max_le
  · linarith
  · have h1 : min p.xmax g.xmax ≤ g.xmax := min_le_right _ _
    have h2 : g.xmin ≤ max p.xmin g.xmin := le_max_right _ _
    linarith

/-- For valid boxes the clamped intersection width is at most the width
of the prior box. -/
theorem intersectedWidth_le_p (g p : Box) (h : p.xmin ≤ p.xmax) :
    intersectedWidth g p ≤ p.xmax - p.xmin := by
  unfold intersectedWidth
  apply max_le
  · linarith
  · have h1 : min p.xmax g.xmax ≤ p.xmax := min_le_left _ _
    have h2 : p.xmin ≤ max p.xmin g.xmin := le_max_left _ _
    linarith

theorem intersectedHeight_le_g (g p : Box) (h : g.ymin ≤ g.ymax) :
    intersectedHeight g p ≤ g.ymax - g.ymin := by
  unfold intersectedHeight
  apply max_le
  · linarith
  · have h1 : min p.ymax g.ymax ≤ g.ymax := min_le_right _ _
    have h2 : g.ymin ≤ max p.ymin g.ymin := le_max_right _ _
    linarith

theorem intersectedHeight_le_p (g p : Box) (h : p.ymin ≤ p.ymax) :
    intersectedHeight g p ≤ p.ymax - p.ymin := by
  unfold intersectedHeight
  apply max_le
  · linarith
  · have h1 : min p.ymax g.ymax ≤ p.ymax := min_le_left _ _
    have h2 : p.ymin ≤ max p.ymin g.ymin := le_max_left _ _
    linarith

/-- A valid positive-area box bounds the intersection by its own area. -/
theorem intersectionArea_le_boxArea_g (g p : Box)
    (hx : g.xmin ≤ g.xmax) (hy : g.ymin ≤ g.ymax) :
    intersectionArea g p ≤ boxArea g := by
  unfold intersectionArea boxArea
  exact mul_le_mul (intersectedWidth_le_g g p hx) (intersectedHeight_le_g g p hy)
    (intersectedHeight_nonneg g p) (by linarith)

theorem intersectionArea_le_boxArea_p (g p : Box)
    (hx : p.xmin ≤ p.xmax) (hy : p.ymin ≤ p.ymax) :
    intersectionArea g p ≤ boxArea p := by
  unfold intersectionArea boxArea
  exact mul_le_mul (intersectedWidth_le_p g p hx) (intersectedHeight_le_p g p hy)
    (intersectedHeight_nonneg g p) (by linarith)

/-- The clamped intersection is symmetric in the two boxes. -/
theorem intersectionArea_comm (g p : Box) :
    intersectionArea g p = intersectionArea p g := by
  unfold intersectionArea intersectedWidth intersectedHeight
  rw [min_comm p.xmax, max_comm p.xmin, min_comm p.ymax, max_comm p.ymin]

/-- The union term is symmetric in the two boxes. -/
theorem unionArea_comm (g p : Box) : unionArea g p = unionArea p g := by
  unfold unionArea
  rw [intersectionArea_comm]
  ring

/-- A box intersected with itself recovers its own area, provided it is
well formed. -/
theorem intersectionArea_self (A : Box) (hx : A.xmin ≤ A.xmax)
    (hy : A.ymin ≤ A.ymax) : intersectionArea A A = boxArea A := by
  unfold intersectionArea intersectedWidth intersectedHeight boxArea
  rw [min_self, max_self, min_self, max_self,
    max_eq_right (by linarith : (0:ℚ) ≤ A.xmax - A.xmin),
    max_eq_right (by linarith : (0:ℚ) ≤ A.ymax - A.ymin)]

/-- C8: for every pair of boxes with positive area (min strictly below
max in both axes), the computed intersection over union has a strictly
positive denominator and lies in [0,1]; the IoU of a valid box with
itself is 1; the computation is symmetric in the two boxes; and the IoU
of two non-overlapping boxes is 0. -/
theorem iou_algebraic_properties (A B : Box)
    (hAx : A.xmin < A.xmax) (hAy : A.ymin < A.ymax)
    (hBx : B.xmin < B.xmax) (hBy : B.ymin < B.ymax) :
    0 < unionArea A B ∧
    0 ≤ intersectionOverUnion A B ∧
    intersectionOverUnion A B ≤ 1 ∧
    intersectionOverUnion A A = 1 ∧
    intersectionOverUnion A B = intersectionOverUnion B A ∧
    ((B.xmax ≤ A.xmin ∨ A.xmax ≤ B.xmin ∨ B.ymax ≤ A.ymin ∨ A.ymax ≤ B.ymin) →
      intersectionOverUnion A B = 0) := by
  have hA : 0 < boxArea A := mul_pos (by linarith) (by linarith)
  have hB : 0 < boxArea B := mul_pos (by linarith) (by linarith)
  have hiA : intersectionArea A B ≤ boxArea A :=
    intersectionArea_le_boxArea_g A B (le_of_lt hAx) (le_of_lt hAy)
  have hiB : intersectionArea A B ≤ boxArea B :=
    intersectionArea_le_boxArea_p A B (le_of_lt hBx) (le_of_lt hBy)
  have hi0 : 0 ≤ intersectionArea A B := intersectionArea_nonneg A B
  have hu : 0 < unionArea A B := by
    unfold unionArea
    linarith
  refine ⟨hu, ?_, ?_, ?_, ?_, ?_⟩
  · exact div_nonneg hi0 (le_of_lt hu)
  · rw [intersectionOverUnion, div_le_one hu]
    unfold unionArea
    linarith
  · have hself : intersectionArea A A = boxArea A :=
      intersectionArea_self A (le_of_lt hAx) (le_of_lt hAy)
    rw [intersectionOverUnion, unionArea, hself]
    rw [show boxArea A + boxArea A - boxArea A = boxArea A by ring]
    exact div_self (ne_of_gt hA)
  · rw [intersectionOverUnion, intersectionOverUnion,
      intersectionArea_comm, unionArea_comm]
  · intro hdisj
    have hzero : intersectionArea A B = 0 := by
      rcases hdisj with h | h | h | h
      · unfold intersectionArea intersectedWidth
        rw [max_eq_left (by
          have h1 : min B.xmax A.xmax ≤ B.xmax := min_le_left _ _
          have h2 : A.xmin ≤ max B.xmin A.xmin := le_max_right _ _
          linarith)]
        exact zero_mul _
      · unfold intersectionArea intersectedWidth
        rw [max_eq_left (by
          have h1 : min B.xmax A.xmax ≤ A.xmax := min_le_right _ _
          have h2 : B.xmin ≤ max B.xmin A.xmin := le_max_left _ _
          linarith)]
        exact zero_mul _
      · unfold intersectionArea intersectedHeight
        rw [max_eq_left (by
          have h1 : min B.ymax A.ymax ≤ B.ymax := min_le_left _ _
          have h2 : A.ymin ≤ max B.ymin A.ymin := le_max_right _ _
          linarith)]
        exact mul_zero _
      · unfold intersectionArea intersectedHeight
        rw [max_eq_left (by
          have h1 : min B.ymax A.ymax ≤ A.ymax := min_le_right _ _
          have h2 : B.ymin ≤ max B.ymin A.ymin := le_max_left _ _
          linarith)]
        exact mul_zero _
    rw [intersectionOverUnion, hzero, zero_div]

/-- C8 witness: the IoU properties evaluated at two concrete disjoint
boxes. -/
theorem iou_algebraic_properties_witness :
    0 < unionArea ⟨0, 0, (1:ℚ)/2, 1⟩ ⟨(3:ℚ)/4, 0, 1, 1⟩ ∧
    0 ≤ intersectionOverUnion ⟨0, 0, (1:ℚ)/2, 1⟩ ⟨(3:ℚ)/4, 0, 1, 1⟩ ∧
    intersectionOverUnion ⟨0, 0, (1:ℚ)/2, 1⟩ ⟨(3:ℚ)/4, 0, 1, 1⟩ ≤ 1 ∧
    intersectionOverUnion ⟨0, 0, (1:ℚ)/2, 1⟩ ⟨0, 0, (1:ℚ)/2, 1⟩ = 1 ∧
    intersectionOverUnion ⟨0, 0, (1:ℚ)/2, 1⟩ ⟨(3:ℚ)/4, 0, 1, 1⟩ =
      intersectionOverUnion ⟨(3:ℚ)/4, 0, 1, 1⟩ ⟨0, 0, (1:ℚ)/2, 1⟩ ∧
    ((Box.xmax ⟨(3:ℚ)/4, 0, 1, 1⟩ ≤ Box.xmin ⟨0, 0, (1:ℚ)/2, 1⟩ ∨
      Box.xmax ⟨0, 0, (1:ℚ)/2, 1⟩ ≤ Box.xmin ⟨(3:ℚ)/4, 0, 1, 1⟩ ∨
      Box.ymax ⟨(3:ℚ)/4, 0, 1, 1⟩ ≤ Box.ymin ⟨0, 0, (1:ℚ)/2, 1⟩ ∨
      Box.ymax ⟨0, 0, (1:ℚ)/2, 1⟩ ≤ Box.ymin ⟨(3:ℚ)/4, 0, 1, 1⟩) →
      intersectionOverUnion ⟨0, 0, (1:ℚ)/2, 1⟩ ⟨(3:ℚ)/4, 0, 1, 1⟩ = 0) :=
  iou_algebraic_properties ⟨0, 0, (1:ℚ)/2, 1⟩ ⟨(3:ℚ)/4, 0, 1, 1⟩
    (by norm_num) (by norm_num) (by norm_num) (by norm_num)

/-- C2 counterexample: a malformed ground-truth box with x_max below
x_min (the claim treats every box with max at most min as zero-area)
drives the IoU denominator to exactly 0 against a perfectly valid
prior, so the computation does divide by zero there, refuting the
claim that it never does. -/
theorem iou_division_by_zero_counterexample :
    Box.xmax ⟨(9:ℚ)/10, 0, 2/5, 1/2⟩ ≤ Box.xmin ⟨(9:ℚ)/10, 0, 2/5, 1/2⟩ ∧
    Box.xmin (⟨0, 0, 1/2, 1/2⟩ : Box) < Box.xmax (⟨0, 0, 1/2, 1/2⟩ : Box) ∧
    Box.ymin (⟨0, 0, 1/2, 1/2⟩ : Box) < Box.ymax (⟨0, 0, 1/2, 1/2⟩ : Box) ∧
    unionArea ⟨(9:ℚ)/10, 0, 2/5, 1/2⟩ ⟨0, 0, 1/2, 1/2⟩ = 0 := by
  refine ⟨by norm_num, by norm_num, by norm_num, ?_⟩
  norm_num [unionArea, boxArea, intersectionArea, intersectedWidth,
    intersectedHeight]

/-- C2 (amended): the intersection width and height are clamped to be
nonnegative, and for every ground-truth box of exactly zero signed area
the IoU against every positive-area prior is exactly 0 with a nonzero
union; but a malformed box with max strictly below min has negative
signed area, which can cancel the prior area and make the union exactly
0 - the division-by-zero numpy reports as nan without raising. -/
theorem iou_degenerate_box_safety (g p : Box)
    (hg : boxArea g = 0) (hp : 0 < boxArea p) :
    0 ≤ intersectedWidth g p ∧ 0 ≤ intersectedHeight g p ∧
    unionArea g p ≠ 0 ∧ intersectionOverUnion g p = 0 := by
  have hinter : intersectionArea g p = 0 := by
    rcases mul_eq_zero.1 hg with hx | hy
    · have hxe : g.xmax = g.xmin := by linarith [sub_eq_zero.1 hx]
      have h1 : intersectedWidth g p ≤ g.xmax - g.xmin :=
        intersectedWidth_le_g g p (le_of_eq hxe.symm)
      have h2 : intersectedWidth g p = 0 := le_antisymm
        (by rw [hxe] at h1; linarith) (intersectedWidth_nonneg g p)
      rw [intersectionArea, h2, zero_mul]
    · have hye : g.ymax = g.ymin := by linarith [sub_eq_zero.1 hy]
      have h1 : intersectedHeight g p ≤ g.ymax - g.ymin :=
        intersectedHeight_le_g g p (le_of_eq hye.symm)
      have h2 : intersectedHeight g p = 0 := le_antisymm
        (by rw [hye] at h1; linarith) (intersectedHeight_nonneg g p)
      rw [intersectionArea, h2, mul_zero]
  have hu : unionArea g p = boxArea p := by
    rw [unionArea, hg, hinter]
    ring
  refine ⟨intersectedWidth_nonneg g p, intersectedHeight_nonneg g p, ?_, ?_⟩
  · rw [hu]
    exact ne_of_gt hp
  · rw [intersectionOverUnion, hinter, zero_div]

/-- C2 witness: the amended safety statement at a concrete zero-width
ground-truth box and a concrete unit prior. -/
theorem iou_degenerate_box_safety_witness :
    0 ≤ intersectedWidth ⟨(1:ℚ)/4, 0, 1/4, 1⟩ ⟨0, 0, 1, 1⟩ ∧
    0 ≤ intersectedHeight ⟨(1:ℚ)/4, 0, 1/4, 1⟩ ⟨0, 0, 1, 1⟩ ∧
    unionArea ⟨(1:ℚ)/4, 0, 1/4, 1⟩ ⟨0, 0, 1, 1⟩ ≠ 0 ∧
    intersectionOverUnion ⟨(1:ℚ)/4, 0, 1/4, 1⟩ ⟨0, 0, 1, 1⟩ = 0 :=
  iou_degenerate_box_safety ⟨(1:ℚ)/4, 0, 1/4, 1⟩ ⟨0, 0, 1, 1⟩
    (by norm_num [boxArea]) (by norm_num [boxArea])

/-! ## List helper lemmas -/

theorem getD_range_map {β : Type} (f : ℕ → β) (n i : ℕ) (d : β) (h : i < n) :
    ((List.range n).map f).getD i d = f i := by
  rw [List.getD_eq_getElem _ d (by simpa using h)]
  simp

theorem getD_map_lt {α β : Type} (f : α → β) (l : List α) (i : ℕ) (d : α)
    (e : β) (h : i < l.length) : (l.map f).getD i e = f (l.getD i d) := by
  rw [List.getD_eq_getElem _ e (by simpa using h), List.getD_eq_getElem _ d h]
  simp

/-- findIdx finds the first index where the predicate holds. -/
theorem findIdx_eq_of_first (p : ℚ → Bool) :
    ∀ (l : List ℚ) (i : ℕ), i < l.length →
      p (l.getD i 0) = true →
      (∀ j, j < i → p (l.getD j 0) = false) →
      l.findIdx p = i := by
  intro l
  induction l with
  | nil => intro i h; simp at h
  | cons a t ih =>
    intro i hi hp hbefore
    cases i with
    | zero =>
      rw [List.findIdx_cons]
      simp only [List.getD_cons_zero] at hp
      simp [hp]
    | succ n =>
      have ha : p a = false := by
        have h0 := hbefore 0 (Nat.succ_pos n)
        simpa using h0
      rw [List.findIdx_cons]
      simp only [ha, cond_false]
      have := ih n (by simpa using hi)
        (by simpa using hp)
        (fun j hj => by simpa using hbefore (j + 1) (by omega))
      omega

/-- Every nonempty list of rationals attains a maximum. -/
theorem exists_max_of_ne_nil :
    ∀ (l : List ℚ), l ≠ [] → ∃ v ∈ l, ∀ w ∈ l, w ≤ v := by
  intro l
  induction l with
  | nil => intro h; exact absurd rfl h
  | cons a t ih =>
    intro _
    cases t with
    | nil => exact ⟨a, by simp, by simp⟩
    | cons b t2 =>
      obtain ⟨v, hv, hmax⟩ := ih (by simp)
      by_cases hav : a ≤ v
      · refine ⟨v, by simp [hv], ?_⟩
        intro w hw
        rcases List.mem_cons.1 hw with rfl | hw2
        · exact hav
        · exact hmax w hw2
      · refine ⟨a, by simp, ?_⟩
        intro w hw
        rcases List.mem_cons.1 hw with rfl | hw2
        · exact le_refl w
        · exact le_trans (hmax w hw2) (le_of_not_le hav)

/-- The argmax of a nonempty list is a valid index. -/
theorem npArgmax_lt_length (l : List ℚ) (h : l ≠ []) :
    npArgmax l < l.length := by
  obtain ⟨v, hv, hmax⟩ := exists_max_of_ne_nil l h
  apply List.findIdx_lt_length_of_exists
  refine ⟨v, hv, ?_⟩
  simp only [List.all_eq_true, decide_eq_true_eq]
  exact hmax

/-- When one entry strictly dominates every other entry, argmax
returns its index. -/
theorem npArgmax_eq_of_strict_max (l : List ℚ) (a : ℕ) (ha : a < l.length)
    (hstrict : ∀ j, j < l.length → j ≠ a → l.getD j 0 < l.getD a 0) :
    npArgmax l = a := by
  apply findIdx_eq_of_first _ l a ha
  · simp only [List.all_eq_true, decide_eq_true_eq]
    intro w hw
    obtain ⟨i, hil, hiw⟩ := List.mem_iff_getElem.1 hw
    by_cases hia : i = a
    · subst hia
      rw [← hiw, List.getD_eq_getElem _ _ hil]
    · have := hstrict i hil hia
      rw [List.getD_eq_getElem _ _ hil] at this
      rw [← hiw]
      exact le_of_lt this
  · intro j hj
    rw [Bool.eq_false_iff]
    intro hall
    rw [List.all_eq_true] at hall
    have hmem : l.getD a 0 ∈ l := by
      rw [List.getD_eq_getElem _ _ ha]
      exact List.getElem_mem ha
    have := hall _ hmem
    rw [decide_eq_true_eq] at this
    have hja : j ≠ a := by omega
    have hlt := hstrict j (by omega) hja
    linarith

/-- The assignment mask has one slot per prior IoU. -/
theorem assignMask_length (t : ℚ) (ious : List ℚ) :
    (assignMask t ious).length = ious.length := by
  by_cases hc : (ious.map fun v => decide (t < v)).any id = true
  · simp [assignMask, hc]
  · simp [assignMask, hc]

/-- The assignment mask of a nonempty IoU vector always marks at least
one prior: either some IoU beats the threshold, or the argmax fallback
slot is forced to true. -/
theorem assignMask_any (t : ℚ) (ious : List ℚ) (h : ious ≠ []) :
    (assignMask t ious).any id = true := by
  unfold assignMask
  by_cases hc : (ious.map fun v => decide (t < v)).any id = true
  · simp [hc]
  · rw [if_neg (by simpa using hc)]
    have hlen : npArgmax ious < (ious.map fun v => decide (t < v)).length := by
      rw [List.length_map]
      exact npArgmax_lt_length ious h
    apply List.any_eq_true.2
    refine ⟨true, ?_, rfl⟩
    exact List.mem_iff_getElem.2
      ⟨npArgmax ious, by simpa using hlen, List.getElem_set_self _⟩

/-- C1 (amended): inside _assign_boxes_to_object every ground-truth box
receives a nonempty assignment mask whenever the prior set is nonempty:
either some prior beats the overlap threshold, or the argmax fallback
marks the single best-IoU prior. (assign_boxes later keeps only priors
whose stored IoU is strictly positive, so a ground-truth box whose IoU
against every prior is 0 still ends up with zero matches in the
returned matrix.) -/
theorem assignment_fallback_mask_nonempty (threshold : ℚ) (priors : List Box)
    (g : Box) (h : priors ≠ []) :
    (assignMask threshold (calculateIntersectionOverUnions priors g)).any id
      = true := by
  apply assignMask_any
  unfold calculateIntersectionOverUnions
  simpa using h

/-- C1 witness: the fallback mask at one prior that does not reach the
threshold against the ground-truth box. -/
theorem assignment_fallback_mask_nonempty_witness :
    (assignMask (1/2) (calculateIntersectionOverUnions [⟨0, 0, 1/2, 1/2⟩]
      ⟨(3:ℚ)/4, 3/4, 1, 1⟩)).any id = true :=
  assignment_fallback_mask_nonempty (1/2) [⟨0, 0, 1/2, 1/2⟩]
    ⟨(3:ℚ)/4, 3/4, 1, 1⟩ (by simp)

/-- C1 counterexample: one ground-truth box that overlaps no prior (all
IoU values are 0). The fallback marks its best prior inside
_assign_boxes_to_object, but assign_boxes keeps only stored IoU
strictly above 0, so the returned matrix is all background: the
ground-truth box is left with zero assigned priors, refuting the claim
that no box is ever left without a match post-fallback. -/
theorem assignment_completeness_counterexample :
    assignBoxes ⟨1, 1, 1, 1⟩ (1/2) 0 2 [⟨0, 0, 1/2, 1/2⟩]
        [[3/4, 3/4, 1, 1, 0, 1]] = [bgRow 0 2] ∧
    (bgRow 0 2).getD 4 0 = 1 ∧ (bgRow 0 2).getD 6 0 = 0 := by
  have hbox : boxOfRow [3/4, 3/4, 1, 1, 0, 1] = ⟨(3:ℚ)/4, 3/4, 1, 1⟩ := by
    norm_num [boxOfRow]
  have hiou : intersectionOverUnion ⟨(3:ℚ)/4, 3/4, 1, 1⟩ ⟨0, 0, 1/2, 1/2⟩
      = 0 := by
    norm_num [intersectionOverUnion, intersectionArea, intersectedWidth,
      intersectedHeight]
  have hious : calculateIntersectionOverUnions [⟨0, 0, 1/2, 1/2⟩]
      ⟨(3:ℚ)/4, 3/4, 1, 1⟩ = [0] := by
    rw [calculateIntersectionOverUnions, List.map_cons, List.map_nil, hiou]
  have hargmax : npArgmax [0] = 0 := by
    norm_num [npArgmax, List.findIdx_cons]
  have hmask : assignMask (1/2) [(0:ℚ)] = [true] := by
    norm_num [assignMask, hargmax]
  have hrange : List.range ([(⟨0, 0, 1/2, 1/2⟩ : Box)]).length = [0] := by
    decide
  have henc : assignBoxesToObject ⟨1, 1, 1, 1⟩ (1/2) [⟨0, 0, 1/2, 1/2⟩]
      ⟨(3:ℚ)/4, 3/4, 1, 1⟩ =
      [(encodeBox ⟨1, 1, 1, 1⟩ ⟨0, 0, 1/2, 1/2⟩ ⟨(3:ℚ)/4, 3/4, 1, 1⟩,
        0)] := by
    rw [assignBoxesToObject, hrange, List.map_cons, List.map_nil, hious,
      hmask]
    simp only [List.getD_cons_zero, if_true]
  have hencs : encodedObjects ⟨1, 1, 1, 1⟩ (1/2) [⟨0, 0, 1/2, 1/2⟩]
      [[3/4, 3/4, 1, 1, 0, 1]] =
      [[(encodeBox ⟨1, 1, 1, 1⟩ ⟨0, 0, 1/2, 1/2⟩ ⟨(3:ℚ)/4, 3/4, 1, 1⟩,
        0)]] := by
    rw [encodedObjects, List.map_cons, List.map_nil, hbox, henc]
  have hcol : storedIouColumn
      (encodedObjects ⟨1, 1, 1, 1⟩ (1/2) [⟨0, 0, 1/2, 1/2⟩]
        [[3/4, 3/4, 1, 1, 0, 1]]) 0 = [0] := by
    rw [hencs, storedIouColumn, List.map_cons, List.map_nil,
      List.getD_cons_zero]
  have hrow : assignedRow ⟨1, 1, 1, 1⟩ (1/2) 0 2 [⟨0, 0, 1/2, 1/2⟩]
      [[3/4, 3/4, 1, 1, 0, 1]] 0 = bgRow 0 2 := by
    rw [assignedRow, hcol, hargmax, List.getD_cons_zero]
    exact if_neg (lt_irrefl 0)
  refine ⟨?_, ?_, ?_⟩
  · simp only [assignBoxes]
    rw [hrange, List.map_cons, List.map_nil, hrow]
  · rw [bgRow, getD_range_map _ _ _ _ (by omega)]
    simp
  · rw [bgRow, getD_range_map _ _ _ _ (by omega)]
    simp

/-- C6: for the empty ground-truth input, assign_boxes returns one row
per prior of width 4 + num_classes + 8 in which the background flag at
column 4 + background_id is 1 and every other column is 0. -/
theorem assign_boxes_background_default (sf : ScaleFactors) (threshold : ℚ)
    (bid numClasses : ℕ) (priors : List Box) (hbid : bid < numClasses) :
    (assignBoxes sf threshold bid numClasses priors []).length
      = priors.length ∧
    ∀ r ∈ assignBoxes sf threshold bid numClasses priors [],
      r.length = 4 + numClasses + 8 ∧
      r.getD (4 + bid) 0 = 1 ∧
      ∀ c, c < 4 + numClasses + 8 → c ≠ 4 + bid → r.getD c 0 = 0 := by
  constructor
  · simp [assignBoxes]
  · intro r hr
    have hre : r = bgRow bid numClasses := List.eq_of_mem_replicate hr
    subst hre
    refine ⟨by simp [bgRow], ?_, ?_⟩
    · rw [bgRow, getD_range_map _ _ _ _ (by omega)]
      simp
    · intro c hc hne
      rw [bgRow, getD_range_map _ _ _ _ hc]
      simp [hne]

/-- C6 witness: the background default at one prior with two classes
and background id 0. -/
theorem assign_boxes_background_default_witness :
    (assignBoxes ⟨1, 1, 1, 1⟩ (1/2) 0 2 [⟨0, 0, 1, 1⟩] []).length = 1 ∧
    ∀ r ∈ assignBoxes ⟨1, 1, 1, 1⟩ (1/2) 0 2 [⟨0, 0, 1, 1⟩] [],
      r.length = 4 + 2 + 8 ∧
      r.getD (4 + 0) 0 = 1 ∧
      ∀ c, c < 4 + 2 + 8 → c ≠ 4 + 0 → r.getD c 0 = 0 := by
  have h := assign_boxes_background_default ⟨1, 1, 1, 1⟩ (1/2) 0 2
    [⟨0, 0, 1, 1⟩] (by decide)
  exact ⟨by simpa using h.1, h.2⟩

/-- Helper for evaluating the decode clip on values already in [0,1]. -/
theorem clip01_eq (x y : ℝ) (hxy : x = y) (h0 : 0 ≤ y) (h1 : y ≤ 1) :
    clip01 x = y := by
  rw [clip01, hxy, max_eq_right h0, min_eq_right h1]

/-- C3: for every prior box with positive width and height, every valid
ground-truth box with coordinates in [0,1], and nonzero scale factors,
decoding the encoded delta of that box against that prior reproduces
the original box coordinates exactly: decode is the algebraic inverse
of encode, and the final clip to [0,1] leaves the recovered in-range
coordinates unchanged. -/
theorem encode_decode_round_trip (sf : ScaleFactors) (d g : Box)
    (hdx : d.xmin < d.xmax) (hdy : d.ymin < d.ymax)
    (hgx : g.xmin < g.xmax) (hgy : g.ymin < g.ymax)
    (hg0x : 0 ≤ g.xmin) (hg1x : g.xmax ≤ 1)
    (hg0y : 0 ≤ g.ymin) (hg1y : g.ymax ≤ 1)
    (hcx : sf.cx ≠ 0) (hcy : sf.cy ≠ 0) (hw : sf.w ≠ 0) (hh : sf.h ≠ 0) :
    decodeBoxes sf [d] [deltaToList (encodeBox sf d g)] =
      [[(g.xmin : ℝ), (g.ymin : ℝ), (g.xmax : ℝ), (g.ymax : ℝ)]] := by
  have hdxR : (0:ℝ) < (d.xmax : ℝ) - (d.xmin : ℝ) := by
    have : (d.xmin : ℝ) < (d.xmax : ℝ) := by exact_mod_cast hdx
    linarith
  have hdyR : (0:ℝ) < (d.ymax : ℝ) - (d.ymin : ℝ) := by
    have : (d.ymin : ℝ) < (d.ymax : ℝ) := by exact_mod_cast hdy
    linarith
  have hgxR : (0:ℝ) < (g.xmax : ℝ) - (g.xmin : ℝ) := by
    have : (g.xmin : ℝ) < (g.xmax : ℝ) := by exact_mod_cast hgx
    linarith
  have hgyR : (0:ℝ) < (g.ymax : ℝ) - (g.ymin : ℝ) := by
    have : (g.ymin : ℝ) < (g.ymax : ℝ) := by exact_mod_cast hgy
    linarith
  have hdxne : ((d.xmax : ℝ) - (d.xmin : ℝ)) ≠ 0 := ne_of_gt hdxR
  have hdyne : ((d.ymax : ℝ) - (d.ymin : ℝ)) ≠ 0 := ne_of_gt hdyR
  have hcxR : (sf.cx : ℝ) ≠ 0 := by exact_mod_cast hcx
  have hcyR : (sf.cy : ℝ) ≠ 0 := by exact_mod_cast hcy
  have hwR : (sf.w : ℝ) ≠ 0 := by exact_mod_cast hw
  have hhR : (sf.h : ℝ) ≠ 0 := by exact_mod_cast hh
  have hexpx : Real.exp (Real.log (((g.xmax : ℝ) - (g.xmin : ℝ)) /
      ((d.xmax : ℝ) - (d.xmin : ℝ))) / (sf.w : ℝ) * (sf.w : ℝ)) =
      ((g.xmax : ℝ) - (g.xmin : ℝ)) / ((d.xmax : ℝ) - (d.xmin : ℝ)) := by
    rw [div_mul_cancel₀ _ hwR, Real.exp_log (div_pos hgxR hdxR)]
  have hexpy : Real.exp (Real.log (((g.ymax : ℝ) - (g.ymin : ℝ)) /
      ((d.ymax : ℝ) - (d.ymin : ℝ))) / (sf.h : ℝ) * (sf.h : ℝ)) =
      ((g.ymax : ℝ) - (g.ymin : ℝ)) / ((d.ymax : ℝ) - (d.ymin : ℝ)) := by
    rw [div_mul_cancel₀ _ hhR, Real.exp_log (div_pos hgyR hdyR)]
  have hxminR : (0:ℝ) ≤ (g.xmin : ℝ) := by exact_mod_cast hg0x
  have hxmaxR : ((g.xmax : ℝ)) ≤ 1 := by exact_mod_cast hg1x
  have hyminR : (0:ℝ) ≤ (g.ymin : ℝ) := by exact_mod_cast hg0y
  have hymaxR : ((g.ymax : ℝ)) ≤ 1 := by exact_mod_cast hg1y
  have hgxltR : (g.xmin : ℝ) < (g.xmax : ℝ) := by exact_mod_cast hgx
  have hgyltR : (g.ymin : ℝ) < (g.ymax : ℝ) := by exact_mod_cast hgy
  rw [decodeBoxes, List.zipWith_cons_cons, List.zipWith_nil_right,
    decodeRow, deltaToList, encodeBox]
  simp only [List.getD_cons_zero, List.getD_cons_succ]
  rw [List.drop_eq_nil_of_le (by simp), List.append_nil]
  simp only [List.cons.injEq, and_true]
  refine ⟨?_, ?_, ?_, ?_⟩
  · refine clip01_eq _ _ ?_ hxminR (by linarith)
    rw [hexpx]
    field_simp
    ring
  · refine clip01_eq _ _ ?_ hyminR (by linarith)
    rw [hexpy]
    field_simp
    ring
  · refine clip01_eq _ _ ?_ (by linarith) hxmaxR
    rw [hexpx]
    field_simp
    ring
  · refine clip01_eq _ _ ?_ (by linarith) hymaxR
    rw [hexpy]
    field_simp
    ring

/-- C3 witness: the round trip at a concrete prior, ground-truth box
and scale factors. -/
theorem encode_decode_round_trip_witness :
    decodeBoxes ⟨1, 1, 2, 2⟩ [⟨0, 0, 1/2, 1/2⟩]
      [deltaToList (encodeBox ⟨1, 1, 2, 2⟩ ⟨0, 0, 1/2, 1/2⟩
        ⟨1/8, 1/4, 3/8, 1/2⟩)] =
      [[((1/8 : ℚ) : ℝ), ((1/4 : ℚ) : ℝ), ((3/8 : ℚ) : ℝ),
        ((1/2 : ℚ) : ℝ)]] :=
  encode_decode_round_trip ⟨1, 1, 2, 2⟩ ⟨0, 0, 1/2, 1/2⟩
    ⟨1/8, 1/4, 3/8, 1/2⟩ (by norm_num) (by norm_num) (by norm_num)
    (by norm_num) (by norm_num) (by norm_num) (by norm_num) (by norm_num)
    (by norm_num) (by norm_num) (by norm_num) (by norm_num)

/-! ## Conflict resolution inside assign_boxes -/

theorem calcIoUs_length (priors : List Box) (g : Box) :
    (calculateIntersectionOverUnions priors g).length = priors.length := by
  simp [calculateIntersectionOverUnions]

theorem calcIoUs_getD (priors : List Box) (g : Box) (p : ℕ)
    (hp : p < priors.length) :
    (calculateIntersectionOverUnions priors g).getD p 0 =
      intersectionOverUnion g (priors.getD p boxZero) := by
  rw [calculateIntersectionOverUnions, getD_map_lt _ _ _ boxZero _ hp]

/-- Any prior strictly above the threshold is marked in the assignment
mask. -/
theorem assignMask_getD_true (t : ℚ) (ious : List ℚ) (p : ℕ)
    (hp : p < ious.length) (h : t < ious.getD p 0) :
    (assignMask t ious).getD p false = true := by
  have hmem : decide (t < ious.getD p 0) ∈ ious.map fun v => decide (t < v) :=
    List.mem_map.2 ⟨ious.getD p 0,
      by rw [List.getD_eq_getElem _ _ hp]; exact List.getElem_mem hp, rfl⟩
  have hany : (ious.map fun v => decide (t < v)).any id = true :=
    List.any_eq_true.2 ⟨decide (t < ious.getD p 0), hmem, by simpa using h⟩
  rw [assignMask, if_pos hany, getD_map_lt _ _ _ 0 _ hp]
  simpa using h

theorem assignBoxesToObject_length (sf : ScaleFactors) (t : ℚ)
    (priors : List Box) (g : Box) :
    (assignBoxesToObject sf t priors g).length = priors.length := by
  simp [assignBoxesToObject]

/-- The stored-IoU slot of one per-object row: the IoU when the prior
is masked, zero otherwise. -/
theorem assignBoxesToObject_snd_getD (sf : ScaleFactors) (t : ℚ)
    (priors : List Box) (g : Box) (p : ℕ) (hp : p < priors.length) :
    ((assignBoxesToObject sf t priors g).getD p ((0, 0, 0, 0), 0)).2 =
      if (assignMask t (calculateIntersectionOverUnions priors g)).getD
          p false
      then (calculateIntersectionOverUnions priors g).getD p 0 else 0 := by
  rw [assignBoxesToObject, getD_range_map _ _ _ _ hp]

/-- The delta slot of one per-object row: the encoded box when the
prior is masked, zero otherwise. -/
theorem assignBoxesToObject_fst_getD (sf : ScaleFactors) (t : ℚ)
    (priors : List Box) (g : Box) (p : ℕ) (hp : p < priors.length) :
    ((assignBoxesToObject sf t priors g).getD p ((0, 0, 0, 0), 0)).1 =
      if (assignMask t (calculateIntersectionOverUnions priors g)).getD
          p false
      then encodeBox sf (priors.getD p boxZero) g else (0, 0, 0, 0) := by
  rw [assignBoxesToObject, getD_range_map _ _ _ _ hp]

theorem encodedObjects_length (sf : ScaleFactors) (t : ℚ)
    (priors : List Box) (gt : List (List ℚ)) :
    (encodedObjects sf t priors gt).length = gt.length := by
  simp [encodedObjects]

theorem encodedObjects_getD (sf : ScaleFactors) (t : ℚ) (priors : List Box)
    (gt : List (List ℚ)) (o : ℕ) (ho : o < gt.length) :
    (encodedObjects sf t priors gt).getD o [] =
      assignBoxesToObject sf t priors (boxOfRow (gt.getD o [])) := by
  rw [encodedObjects, getD_map_lt _ _ _ [] _ ho]

theorem storedIouColumn_length (enc : List (List ((ℝ × ℝ × ℝ × ℝ) × ℚ)))
    (p : ℕ) : (storedIouColumn enc p).length = enc.length := by
  simp [storedIouColumn]

theorem storedIouColumn_getD (enc : List (List ((ℝ × ℝ × ℝ × ℝ) × ℚ)))
    (p o : ℕ) (ho : o < enc.length) :
    (storedIouColumn enc p).getD o 0 =
      ((enc.getD o []).getD p ((0, 0, 0, 0), 0)).2 := by
  rw [storedIouColumn, getD_map_lt _ _ _ [] _ ho]

/-- Reading one row of the assign_boxes output for nonempty ground
truth. -/
theorem assignBoxes_getD_of_ne_nil (sf : ScaleFactors) (t : ℚ)
    (bid numClasses : ℕ) (priors : List Box) (gt : List (List ℚ)) (p : ℕ)
    (hgt : gt ≠ []) (hp : p < priors.length) :
    (assignBoxes sf t bid numClasses priors gt).getD p [] =
      assignedRow sf t bid numClasses priors gt p := by
  cases gt with
  | nil => exact absurd rfl hgt
  | cons r rest =>
    simp only [assignBoxes]
    rw [getD_range_map _ _ _ _ hp]

/-- C4: whenever ground-truth box a beats the overlap threshold at
prior p and has strictly the highest IoU there among all ground-truth
boxes (with a nonnegative threshold), the row of the assign_boxes
output at p carries the encoded delta of box a against prior p and the
class columns copied from row a: the losing matches are discarded for
that prior. -/
theorem conflict_resolution_highest_iou_wins (sf : ScaleFactors)
    (threshold : ℚ) (bid numClasses : ℕ) (priors : List Box)
    (gt : List (List ℚ)) (a p : ℕ)
    (hp : p < priors.length) (ha : a < gt.length) (hthr : 0 ≤ threshold)
    (hwin : threshold < intersectionOverUnion (boxOfRow (gt.getD a []))
      (priors.getD p boxZero))
    (hothers : ∀ o, o < gt.length → o ≠ a →
      intersectionOverUnion (boxOfRow (gt.getD o [])) (priors.getD p boxZero)
        < intersectionOverUnion (boxOfRow (gt.getD a []))
          (priors.getD p boxZero)) :
    (assignBoxes sf threshold bid numClasses priors gt).getD p [] =
      matchedRow bid numClasses
        (encodeBox sf (priors.getD p boxZero) (boxOfRow (gt.getD a [])))
        (gt.getD a []) := by
  have hgtne : gt ≠ [] := List.ne_nil_of_length_pos (by omega)
  have hencLen : (encodedObjects sf threshold priors gt).length = gt.length :=
    encodedObjects_length sf threshold priors gt
  have hcolLen : (storedIouColumn (encodedObjects sf threshold priors gt)
      p).length = gt.length := by
    rw [storedIouColumn_length, hencLen]
  have hmaskA : (assignMask threshold (calculateIntersectionOverUnions priors
      (boxOfRow (gt.getD a [])))).getD p false = true := by
    apply assignMask_getD_true
    · rw [calcIoUs_length]
      exact hp
    · rw [calcIoUs_getD _ _ _ hp]
      exact hwin
  have hstored : ∀ o, o < gt.length →
      (storedIouColumn (encodedObjects sf threshold priors gt) p).getD o 0 =
        if (assignMask threshold (calculateIntersectionOverUnions priors
            (boxOfRow (gt.getD o [])))).getD p false
        then (calculateIntersectionOverUnions priors
          (boxOfRow (gt.getD o []))).getD p 0
        else 0 := by
    intro o ho
    rw [storedIouColumn_getD _ _ _ (by rw [hencLen]; exact ho),
      encodedObjects_getD _ _ _ _ _ ho,
      assignBoxesToObject_snd_getD _ _ _ _ _ hp]
  have hstoredA : (storedIouColumn (encodedObjects sf threshold priors gt)
      p).getD a 0 =
      intersectionOverUnion (boxOfRow (gt.getD a []))
        (priors.getD p boxZero) := by
    rw [hstored a ha, if_pos hmaskA, calcIoUs_getD _ _ _ hp]
  have hApos : 0 < intersectionOverUnion (boxOfRow (gt.getD a []))
      (priors.getD p boxZero) := lt_of_le_of_lt hthr hwin
  have hstrict : ∀ j, j < (storedIouColumn (encodedObjects sf threshold
      priors gt) p).length → j ≠ a →
      (storedIouColumn (encodedObjects sf threshold priors gt) p).getD j 0 <
        (storedIouColumn (encodedObjects sf threshold priors gt) p).getD
          a 0 := by
    intro j hj hja
    rw [hstoredA, hstored j (by rw [← hcolLen]; exact hj)]
    split
    · rw [calcIoUs_getD _ _ _ hp]
      exact hothers j (by rw [← hcolLen]; exact hj) hja
    · exact hApos
  have hargmax : npArgmax (storedIouColumn (encodedObjects sf threshold
      priors gt) p) = a :=
    npArgmax_eq_of_strict_max _ a (by rw [hcolLen]; exact ha) hstrict
  have hpos : 0 < (storedIouColumn (encodedObjects sf threshold priors gt)
      p).getD (npArgmax (storedIouColumn (encodedObjects sf threshold priors
        gt) p)) 0 := by
    rw [hargmax, hstoredA]
    exact hApos
  rw [assignBoxes_getD_of_ne_nil _ _ _ _ _ _ _ hgtne hp]
  unfold assignedRow
  rw [if_pos hpos, hargmax, encodedObjects_getD _ _ _ _ _ ha,
    assignBoxesToObject_fst_getD _ _ _ _ _ hp, if_pos hmaskA]

/-- C4 witness: two ground-truth boxes both above threshold 2/5 at the
single prior; the second box has IoU 1 against the prior, the first
only 1/2, so the second wins the row. -/
theorem conflict_resolution_highest_iou_wins_witness :
    (assignBoxes ⟨1, 1, 1, 1⟩ (2/5) 0 2 [⟨0, 0, 1/2, 1/2⟩]
        [[0, 0, 1/4, 1/2, 1, 0], [0, 0, 1/2, 1/2, 0, 1]]).getD 0 [] =
      matchedRow 0 2
        (encodeBox ⟨1, 1, 1, 1⟩
          (([⟨0, 0, 1/2, 1/2⟩] : List Box).getD 0 boxZero)
          (boxOfRow (([[0, 0, 1/4, 1/2, 1, 0],
            [0, 0, 1/2, 1/2, 0, 1]] : List (List ℚ)).getD 1 [])))
        (([[0, 0, 1/4, 1/2, 1, 0],
          [0, 0, 1/2, 1/2, 0, 1]] : List (List ℚ)).getD 1 []) :=
  conflict_resolution_highest_iou_wins ⟨1, 1, 1, 1⟩ (2/5) 0 2
    [⟨0, 0, 1/2, 1/2⟩] [[0, 0, 1/4, 1/2, 1, 0], [0, 0, 1/2, 1/2, 0, 1]]
    1 0 (by decide) (by decide) (by norm_num)
    (by
      have h1 : (([[0, 0, 1/4, 1/2, 1, 0],
          [0, 0, 1/2, 1/2, 0, 1]] : List (List ℚ))).getD 1 []
          = [0, 0, 1/2, 1/2, 0, 1] := rfl
      have h2 : (([⟨0, 0, 1/2, 1/2⟩] : List Box)).getD 0 boxZero
          = ⟨0, 0, 1/2, 1/2⟩ := rfl
      rw [h1, h2]
      norm_num [intersectionOverUnion, intersectionArea, intersectedWidth,
        intersectedHeight, unionArea, boxArea, boxOfRow])
    (by
      intro o ho hne
      have ho2 : o < 2 := by simpa using ho
      interval_cases o
      · have h1 : (([[0, 0, 1/4, 1/2, 1, 0],
            [0, 0, 1/2, 1/2, 0, 1]] : List (List ℚ))).getD 0 []
            = [0, 0, 1/4, 1/2, 1, 0] := rfl
        have h1a : (([[0, 0, 1/4, 1/2, 1, 0],
            [0, 0, 1/2, 1/2, 0, 1]] : List (List ℚ))).getD 1 []
            = [0, 0, 1/2, 1/2, 0, 1] := rfl
        have h2 : (([⟨0, 0, 1/2, 1/2⟩] : List Box)).getD 0 boxZero
            = ⟨0, 0, 1/2, 1/2⟩ := rfl
        rw [h1, h1a, h2]
        norm_num [intersectionOverUnion, intersectionArea, intersectedWidth,
          intersectedHeight, unionArea, boxArea, boxOfRow]
      · exact absurd rfl hne)

/-- C7: for every assignment matrix and ratio, the number of background
rows included by sample selection is at most ratio times the number of
foreground rows, and every foreground row is always included. -/
theorem negative_sample_cap (negPerPos : ℕ) (perm : List ℕ)
    (assignedData : List (List ℚ)) :
    (selectSamples negPerPos perm assignedData).2.length ≤
      negPerPos * (selectSamples negPerPos perm assignedData).1.length ∧
    ∀ r ∈ assignedData, r.getD 4 0 ≠ 1 →
      r ∈ (selectSamples negPerPos perm assignedData).1 := by
  constructor
  · refine le_trans (List.length_filterMap_le _ _) ?_
    rw [List.length_take]
    exact min_le_left _ _
  · intro r hr hfg
    exact List.mem_filter.2 ⟨hr, by simpa using hfg⟩

/-- C7 witness: one foreground and one background row with ratio 1. -/
theorem negative_sample_cap_witness :
    (selectSamples 1 [0] [[0, 0, 0, 0, 0, 1],
      [0, 0, 0, 0, 1, 0]]).2.length ≤
      1 * (selectSamples 1 [0] [[0, 0, 0, 0, 0, 1],
        [0, 0, 0, 0, 1, 0]]).1.length ∧
    ([0, 0, 0, 0, 0, 1] : List ℚ) ∈
      (selectSamples 1 [0] [[0, 0, 0, 0, 0, 1],
        [0, 0, 0, 0, 1, 0]]).1 :=
  ⟨(negative_sample_cap 1 [0] [[0, 0, 0, 0, 0, 1], [0, 0, 0, 0, 1, 0]]).1,
   (negative_sample_cap 1 [0] [[0, 0, 0, 0, 0, 1], [0, 0, 0, 0, 1, 0]]).2
     [0, 0, 0, 0, 0, 1] (List.mem_cons_self _ _) (by decide)⟩

/-- When the brightness attribute is missing, any jitter sequence
containing saturation aborts with the attribute error. -/
theorem applyJitters_error_of_saturation_mem (st : ImageGenState)
    (hb : st.brightnessVar = none) (rands : ℕ → ℚ) :
    ∀ (order : List Jitter) (k : ℕ) (img : List (ℚ × ℚ × ℚ)),
      Jitter.saturation ∈ order →
      applyJitters st rands k order img = Except.error () := by
  intro order
  induction order with
  | nil =>
    intro k img h
    simp at h
  | cons j rest ih =>
    intro k img hmem
    cases hj : applyJitter st j (rands k) img with
    | error e =>
      simp [applyJitters, hj]
    | ok img2 =>
      have hjs : j ≠ Jitter.saturation := by
        intro hEq
        rw [hEq] at hj
        simp [applyJitter, saturationOp, hb] at hj
      have hrest : Jitter.saturation ∈ rest := by
        rcases List.mem_cons.1 hmem with hEq | h
        · exact absurd hEq.symm hjs
        · exact h
      simp only [applyJitters, hj]
      exact ih (k + 1) img2 hrest

/-- C9: an ImageGenerator constructed with nonzero saturation variance
and zero brightness variance never stores the brightness attribute, yet
enables the saturation operation, whose blend factor reads that
attribute; so every transform call (any shuffle order of the enabled
jitters, any random draws, any later stages, any image) aborts with the
AttributeError. -/
theorem transform_saturation_attribute_error (saturationVar contrastVar : ℚ)
    (order : List Jitter) (rands : ℕ → ℚ)
    (laterStages : List (ℚ × ℚ × ℚ) → List (ℚ × ℚ × ℚ))
    (img : List (ℚ × ℚ × ℚ)) (hs : saturationVar ≠ 0)
    (hperm : order.Perm (initGenerator saturationVar 0 contrastVar).colorJitter) :
    transform (initGenerator saturationVar 0 contrastVar) rands order
      laterStages img = Except.error () := by
  have herr : applyJitters (initGenerator saturationVar 0 contrastVar) rands
      0 order img = Except.error () := by
    apply applyJitters_error_of_saturation_mem
    · simp [initGenerator]
    · refine hperm.mem_iff.2 ?_
      simp [initGenerator, hs]
  rw [transform, herr]

/-- C9 witness: saturation variance 1/2, brightness variance 0, the
enabled jitter list in its built order, the identity later stages. -/
theorem transform_saturation_attribute_error_witness :
    transform (initGenerator (1/2) 0 0) (fun _ => 0)
      [Jitter.saturation] id [] = Except.error () :=
  transform_saturation_attribute_error (1/2) 0 [Jitter.saturation]
    (fun _ => 0) id [] (by norm_num)
    (by
      have h : (initGenerator (1/2) 0 0).colorJitter = [Jitter.saturation] := by
        norm_num [initGenerator]
      rw [h])

/-- C10: whenever horizontal_flip or vertical_flip fires, the flip
returns the very array object it was handed (the stored address), and
the stored ground_truth_data entry for the key now holds the remapped
rows, so a second pass over the same key flips the already-flipped
coordinates again: the mutation persists across passes. Covered cases:
the horizontal flip alone, the vertical flip alone, and both in one
transform call (the vertical remap then sees the horizontal result),
each with its second-pass persistence. -/
theorem flip_mutates_stored_ground_truth (heap : ℕ → List (List ℚ))
    (groundTruthData : String → ℕ) (key : String) :
    (horizontalFlip true heap (groundTruthData key)).2
      = groundTruthData key ∧
    (verticalFlip true heap (groundTruthData key)).2
      = groundTruthData key ∧
    flowKeyBoxEffect groundTruthData key true false heap
        (groundTruthData key)
      = (heap (groundTruthData key)).map horizontalFlipRow ∧
    flowKeyBoxEffect groundTruthData key true false
        (flowKeyBoxEffect groundTruthData key true false heap)
        (groundTruthData key)
      = ((heap (groundTruthData key)).map horizontalFlipRow).map
          horizontalFlipRow ∧
    flowKeyBoxEffect groundTruthData key false true heap
        (groundTruthData key)
      = (heap (groundTruthData key)).map verticalFlipRow ∧
    flowKeyBoxEffect groundTruthData key false true
        (flowKeyBoxEffect groundTruthData key false true heap)
        (groundTruthData key)
      = ((heap (groundTruthData key)).map verticalFlipRow).map
          verticalFlipRow ∧
    flowKeyBoxEffect groundTruthData key true true heap
        (groundTruthData key)
      = ((heap (groundTruthData key)).map horizontalFlipRow).map
          verticalFlipRow ∧
    flowKeyBoxEffect groundTruthData key true true
        (flowKeyBoxEffect groundTruthData key true true heap)
        (groundTruthData key)
      = ((((heap (groundTruthData key)).map horizontalFlipRow).map
          verticalFlipRow).map horizontalFlipRow).map verticalFlipRow := by
  refine ⟨rfl, rfl, ?_, ?_, ?_, ?_, ?_, ?_⟩ <;>
    simp [flowKeyBoxEffect, transformBoxEffect, horizontalFlip, verticalFlip,
      heapUpdate]

/-- C5 evaluation: a ground-truth box identical to the single prior on
a 100 x 200 image. The prior matches with IoU 1 and its row carries the
encoded delta (0, 0, 0, 0), so after denormalization the first four
values of the selected foreground row are 0, 0, 0, 0 and the crop
window is the empty region (0, 0, 0, 0) - not the absolute pixel
coordinates 50, 25, 150, 75 of the matched box. -/
theorem denormalize_crops_deltas_not_box_coordinates :
    assignBoxes ⟨1, 1, 1, 1⟩ (1/2) 0 2 [⟨1/4, 1/4, 3/4, 3/4⟩]
        [[1/4, 1/4, 3/4, 3/4, 0, 1]]
      = [matchedRow 0 2 (0, 0, 0, 0) [1/4, 1/4, 3/4, 3/4, 0, 1]] ∧
    (matchedRow 0 2 ((0:ℝ), 0, 0, 0) [1/4, 1/4, 3/4, 3/4, 0, 1]).getD 4 0
      = 0 ∧
    ((denormalizeBox [matchedRow 0 2 ((0:ℝ), 0, 0, 0)
        [1/4, 1/4, 3/4, 3/4, 0, 1]] 100 200).getD 0 []).getD 0 0 = 0 ∧
    ((denormalizeBox [matchedRow 0 2 ((0:ℝ), 0, 0, 0)
        [1/4, 1/4, 3/4, 3/4, 0, 1]] 100 200).getD 0 []).getD 1 0 = 0 ∧
    ((denormalizeBox [matchedRow 0 2 ((0:ℝ), 0, 0, 0)
        [1/4, 1/4, 3/4, 3/4, 0, 1]] 100 200).getD 0 []).getD 2 0 = 0 ∧
    ((denormalizeBox [matchedRow 0 2 ((0:ℝ), 0, 0, 0)
        [1/4, 1/4, 3/4, 3/4, 0, 1]] 100 200).getD 0 []).getD 3 0 = 0 ∧
    cropWindow ((denormalizeBox [matchedRow 0 2 ((0:ℝ), 0, 0, 0)
        [1/4, 1/4, 3/4, 3/4, 0, 1]] 100 200).getD 0 []) = (0, 0, 0, 0) ∧
    ((((1:ℚ)/4 : ℚ) : ℝ) * 200 = 50 ∧ (((1:ℚ)/4 : ℚ) : ℝ) * 100 = 25 ∧
      (((3:ℚ)/4 : ℚ) : ℝ) * 200 = 150 ∧ (((3:ℚ)/4 : ℚ) : ℝ) * 100 = 75) ∧
    (0:ℝ) ≠ 50 := by
  have h1 : boxOfRow [1/4, 1/4, 3/4, 3/4, 0, 1]
      = ⟨(1:ℚ)/4, 1/4, 3/4, 3/4⟩ := by
    norm_num [boxOfRow]
  have hiou : intersectionOverUnion ⟨(1:ℚ)/4, 1/4, 3/4, 3/4⟩
      ⟨1/4, 1/4, 3/4, 3/4⟩ = 1 := by
    norm_num [intersectionOverUnion, intersectionArea, intersectedWidth,
      intersectedHeight, unionArea, boxArea]
  have hious : calculateIntersectionOverUnions [⟨1/4, 1/4, 3/4, 3/4⟩]
      ⟨(1:ℚ)/4, 1/4, 3/4, 3/4⟩ = [1] := by
    rw [calculateIntersectionOverUnions, List.map_cons, List.map_nil, hiou]
  have hmask : assignMask (1/2) [(1:ℚ)] = [true] := by
    norm_num [assignMask]
  have hrange : List.range ([(⟨1/4, 1/4, 3/4, 3/4⟩ : Box)] : List Box).length
      = [0] := by
    decide
  have henc : assignBoxesToObject ⟨1, 1, 1, 1⟩ (1/2) [⟨1/4, 1/4, 3/4, 3/4⟩]
      ⟨(1:ℚ)/4, 1/4, 3/4, 3/4⟩ =
      [(encodeBox ⟨1, 1, 1, 1⟩ ⟨1/4, 1/4, 3/4, 3/4⟩
        ⟨(1:ℚ)/4, 1/4, 3/4, 3/4⟩, 1)] := by
    rw [assignBoxesToObject, hrange, List.map_cons, List.map_nil, hious,
      hmask]
    simp only [List.getD_cons_zero, if_true]
  have hencs : encodedObjects ⟨1, 1, 1, 1⟩ (1/2) [⟨1/4, 1/4, 3/4, 3/4⟩]
      [[1/4, 1/4, 3/4, 3/4, 0, 1]] =
      [[(encodeBox ⟨1, 1, 1, 1⟩ ⟨1/4, 1/4, 3/4, 3/4⟩
        ⟨(1:ℚ)/4, 1/4, 3/4, 3/4⟩, 1)]] := by
    rw [encodedObjects, List.map_cons, List.map_nil, h1, henc]
  have hcol : storedIouColumn (encodedObjects ⟨1, 1, 1, 1⟩ (1/2)
      [⟨1/4, 1/4, 3/4, 3/4⟩] [[1/4, 1/4, 3/4, 3/4, 0, 1]]) 0 = [1] := by
    rw [hencs, storedIouColumn, List.map_cons, List.map_nil,
      List.getD_cons_zero]
  have hargmax1 : npArgmax [1] = 0 := by
    norm_num [npArgmax, List.findIdx_cons]
  have hdelta : encodeBox ⟨1, 1, 1, 1⟩ ⟨1/4, 1/4, 3/4, 3/4⟩
      ⟨(1:ℚ)/4, 1/4, 3/4, 3/4⟩ = (0, 0, 0, 0) := by
    unfold encodeBox
    norm_num [Real.log_one]
  have hrow : assignedRow ⟨1, 1, 1, 1⟩ (1/2) 0 2 [⟨1/4, 1/4, 3/4, 3/4⟩]
      [[1/4, 1/4, 3/4, 3/4, 0, 1]] 0
      = matchedRow 0 2 (0, 0, 0, 0) [1/4, 1/4, 3/4, 3/4, 0, 1] := by
    unfold assignedRow
    rw [hcol, hargmax1, List.getD_cons_zero,
      if_pos (by norm_num : (0:ℚ) < 1), hencs]
    simp only [List.getD_cons_zero]
    rw [hdelta]
  have hM : assignBoxes ⟨1, 1, 1, 1⟩ (1/2) 0 2 [⟨1/4, 1/4, 3/4, 3/4⟩]
      [[1/4, 1/4, 3/4, 3/4, 0, 1]]
      = [matchedRow 0 2 (0, 0, 0, 0) [1/4, 1/4, 3/4, 3/4, 0, 1]] := by
    simp only [assignBoxes]
    rw [hrange, List.map_cons, List.map_nil, hrow]
  have hlen : (matchedRow 0 2 ((0:ℝ), 0, 0, 0)
      [1/4, 1/4, 3/4, 3/4, 0, 1]).length = 14 := by
    simp [matchedRow]
  have hg0 : (matchedRow 0 2 ((0:ℝ), 0, 0, 0)
      [1/4, 1/4, 3/4, 3/4, 0, 1]).getD 0 0 = 0 := by
    rw [matchedRow, getD_range_map _ _ _ _ (by omega)]
    norm_num
  have hg1 : (matchedRow 0 2 ((0:ℝ), 0, 0, 0)
      [1/4, 1/4, 3/4, 3/4, 0, 1]).getD 1 0 = 0 := by
    rw [matchedRow, getD_range_map _ _ _ _ (by omega)]
    norm_num
  have hg2 : (matchedRow 0 2 ((0:ℝ), 0, 0, 0)
      [1/4, 1/4, 3/4, 3/4, 0, 1]).getD 2 0 = 0 := by
    rw [matchedRow, getD_range_map _ _ _ _ (by omega)]
    norm_num
  have hg3 : (matchedRow 0 2 ((0:ℝ), 0, 0, 0)
      [1/4, 1/4, 3/4, 3/4, 0, 1]).getD 3 0 = 0 := by
    rw [matchedRow, getD_range_map _ _ _ _ (by omega)]
    norm_num
  have hg4 : (matchedRow 0 2 ((0:ℝ), 0, 0, 0)
      [1/4, 1/4, 3/4, 3/4, 0, 1]).getD 4 0 = 0 := by
    rw [matchedRow, getD_range_map _ _ _ _ (by omega)]
    norm_num
  have hdn0 : ((denormalizeBox [matchedRow 0 2 ((0:ℝ), 0, 0, 0)
      [1/4, 1/4, 3/4, 3/4, 0, 1]] 100 200).getD 0 []).getD 0 0 = 0 := by
    unfold denormalizeBox
    simp only [List.map_cons, List.map_nil, List.getD_cons_zero, hlen]
    rw [getD_range_map _ _ _ _ (by omega), if_pos rfl, hg0, zero_mul]
  have hdn1 : ((denormalizeBox [matchedRow 0 2 ((0:ℝ), 0, 0, 0)
      [1/4, 1/4, 3/4, 3/4, 0, 1]] 100 200).getD 0 []).getD 1 0 = 0 := by
    unfold denormalizeBox
    simp only [List.map_cons, List.map_nil, List.getD_cons_zero, hlen]
    rw [getD_range_map _ _ _ _ (by omega), if_neg (by decide), if_pos rfl,
      hg1, zero_mul]
  have hdn2 : ((denormalizeBox [matchedRow 0 2 ((0:ℝ), 0, 0, 0)
      [1/4, 1/4, 3/4, 3/4, 0, 1]] 100 200).getD 0 []).getD 2 0 = 0 := by
    unfold denormalizeBox
    simp only [List.map_cons, List.map_nil, List.getD_cons_zero, hlen]
    rw [getD_range_map _ _ _ _ (by omega), if_neg (by decide),
      if_neg (by decide), if_pos rfl, hg2, zero_mul]
  have hdn3 : ((denormalizeBox [matchedRow 0 2 ((0:ℝ), 0, 0, 0)
      [1/4, 1/4, 3/4, 3/4, 0, 1]] 100 200).getD 0 []).getD 3 0 = 0 := by
    unfold denormalizeBox
    simp only [List.map_cons, List.map_nil, List.getD_cons_zero, hlen]
    rw [getD_range_map _ _ _ _ (by omega), if_neg (by decide),
      if_neg (by decide), if_neg (by decide), if_pos rfl, hg3, zero_mul]
  refine ⟨hM, hg4, hdn0, hdn1, hdn2, hdn3, ?_, by norm_num, by norm_num⟩
  rw [cropWindow, hdn0, hdn1, hdn2, hdn3]
  norm_num [pyInt]
